import Mathlib

/-!
Verification of the GitHub Readme Fetcher server (`src/server.js`).

The development shallowly embeds the request-handling pipeline of the
server: the URL parser `parseGitHubUrl`, the `NodeCache`-backed cache,
the readme fetcher `fetchRepoReadme`, the render pipeline
(`marked.parse` followed by `DOMPurify.sanitize`), and the
`POST /api/fetch-readme` endpoint together with the global error
middleware.  JavaScript strings are modelled by `String` / `List Char`;
the platform `URL` constructor, the `marked` Markdown renderer and the
`DOMPurify` sanitizer are third-party/platform components modelled here
at the level of detail the server relies on (documented at each
definition).  Fallible operations return `Option` / `Except`.
-/

namespace Readme

/-! ## JavaScript values

The request body field `url` can be absent (`undefined`), `null`, or a
non-string JSON value; `new URL(x)` stringifies its argument. -/

/-- A JSON/JavaScript value as it can appear in the request body's
`url` field after `express.json()` parsing (plus `undefined` for an
absent field). -/
inductive JSValue where
  | undef
  | jsNull
  | str (s : String)
  | num (n : Int)
  | bool (b : Bool)
deriving DecidableEq

/-- JavaScript `ToString` coercion, as applied by `new URL(x)` to a
non-string argument. -/
def jsToString : JSValue → String
  | .undef => "undefined"
  | .jsNull => "null"
  | .str s => s
  | .num n => toString n
  | .bool b => if b then "true" else "false"

/-! ## The WHATWG `URL` platform constructor (model)

`parseGitHubUrl` calls `new URL(inputUrl)`, which throws on strings
that are not absolute URLs.  We model the constructor as
`jsNewURL : String → Except Unit URLRec`, keeping the two components
the server reads: `hostname` (lowercased by the constructor) and
`pathname`.  Simplifications relative to the full WHATWG parser: the
host is taken literally (lowercased, no percent-decoding / IDNA /
IPv6 handling) and port digits are not validated.  Faithfully kept:
leading/trailing C0-control-and-space trimming, tab/newline stripping,
scheme syntax, the special-scheme slash slurping (`https:foo` parses
like `https://foo`), userinfo (`…@host`), port splitting, backslashes
acting as slashes in special URLs, empty-host rejection for special
schemes, and opaque paths for non-special schemes (`mailto:` has an
empty hostname). -/

/-- Result of a successful `new URL(...)`: the fields the server reads. -/
structure URLRec where
  hostname : String
  pathname : String
deriving DecidableEq

/-- ASCII alphabetic test (JS regexp `[A-Za-z]`). -/
def isUrlAlpha (c : Char) : Bool :=
  ('a' ≤ c && c ≤ 'z') || ('A' ≤ c && c ≤ 'Z')

/-- Characters allowed after the first character of a URL scheme. -/
def isSchemeChar (c : Char) : Bool :=
  isUrlAlpha c || c.isDigit || c = '+' || c = '-' || c = '.'

/-- The WHATWG special schemes (those with authority slurping). -/
def specialSchemes : List (List Char) :=
  ["http".data, "https".data, "ws".data, "wss".data, "ftp".data, "file".data]

/-- Split a character list at every occurrence of `c`
(JS `String.prototype.split` with a single-character separator:
`"".split(c)` gives `[""]`, adjacent separators give empty pieces). -/
def splitList (c : Char) : List Char → List (List Char)
  | [] => [[]]
  | x :: xs =>
    if x = c then [] :: splitList c xs
    else
      match splitList c xs with
      | h :: t => (x :: h) :: t
      | [] => [[x]]

/-- WHATWG input preprocessing: remove all ASCII tab/newline characters,
then trim leading and trailing C0 controls and spaces. -/
def urlPreprocess (l : List Char) : List Char :=
  let stripped := l.filter (fun c => ¬(c = '\t' || c = '\n' || c = '\r'))
  let front := stripped.dropWhile (fun c => c.toNat ≤ 32)
  (front.reverse.dropWhile (fun c => c.toNat ≤ 32)).reverse

/-- Authority/path terminators in a special URL. -/
def isAuthorityEnd (c : Char) : Bool :=
  c = '/' || c = '\\' || c = '?' || c = '#'

/-- Parse the authority-plus-path tail of a URL (the part after the
scheme's slashes): extract hostname (after the last `@`, before the
first `:`, lowercased) and pathname (backslashes normalised to
slashes, `?`/`#` and beyond dropped, `/` when empty). -/
def parseAuthority (rest : List Char) : Except Unit URLRec :=
  let authority := rest.takeWhile (fun c => ¬isAuthorityEnd c)
  let afterAuth := rest.dropWhile (fun c => ¬isAuthorityEnd c)
  let hostPort := (splitList '@' authority).getLastD []
  let host := hostPort.takeWhile (fun c => ¬(c = ':'))
  if host = [] then .error ()
  else
    let path := afterAuth.takeWhile (fun c => ¬(c = '?' || c = '#'))
    let path := path.map (fun c => if c = '\\' then '/' else c)
    let path := if path = [] then ['/'] else path
    .ok ⟨String.mk (host.map Char.toLower), String.mk path⟩

/-- Model of the platform `new URL(input)` constructor (no base URL):
returns the `hostname`/`pathname` record, or `.error ()` where the real
constructor throws `TypeError`. -/
def jsNewURL (s : String) : Except Unit URLRec :=
  let l := urlPreprocess s.data
  match l with
  | [] => .error ()
  | c :: rest =>
    if ¬isUrlAlpha c then .error ()
    else
      let schemeTail := rest.takeWhile isSchemeChar
      let afterScheme := rest.dropWhile isSchemeChar
      match afterScheme with
      | ':' :: rest' =>
        let scheme := (c :: schemeTail).map Char.toLower
        if scheme ∈ specialSchemes then
          -- special scheme: slurp any run of slashes/backslashes, then authority
          parseAuthority (rest'.dropWhile (fun c => c = '/' || c = '\\'))
        else
          match rest' with
          | '/' :: '/' :: rest'' => parseAuthority rest''
          | _ =>
            -- opaque path: hostname is empty
            .ok ⟨"", String.mk (rest'.takeWhile (fun c => ¬(c = '?' || c = '#')))⟩
      | _ => .error ()

/-! ## The URL parser `parseGitHubUrl` (src/server.js lines 70–86) -/

/-- The parsed repository reference `{owner, repo}`. -/
structure RepoRef where
  owner : String
  repo : String
deriving DecidableEq

/-- Model of `hostname.replace(/^www\./, "")`: strip one leading
`www.` if present. -/
def stripWww (h : String) : String :=
  match h.data with
  | 'w' :: 'w' :: 'w' :: '.' :: t => String.mk t
  | _ => h

/-- `pathname.split("/").filter(Boolean)`: the non-empty path
segments (`filter(Boolean)` keeps exactly the non-empty strings). -/
def pathSegments (p : String) : List String :=
  ((splitList '/' p.data).map String.mk).filter (fun s => s ≠ "")

/-- `parseGitHubUrl` from src/server.js: `new URL` inside `try`,
normalise the hostname by stripping a leading `www.`, require
`github.com`, require at least two non-empty path segments, and return
the first two as owner and repo.  All failures (including a throwing
`URL` constructor) yield `none`. -/
def parseGitHubUrl (inputUrl : String) : Option RepoRef :=
  match jsNewURL inputUrl with
  | .error _ => none
  | .ok urlObj =>
    let normalizedHost := stripWww urlObj.hostname
    if normalizedHost ≠ "github.com" then none
    else
      let parts := pathSegments urlObj.pathname
      if parts.length < 2 then none
      else some ⟨parts.getD 0 "", parts.getD 1 ""⟩

/-- The parser as invoked by the endpoint: `req.body`'s `url` field is
an arbitrary JSON value (or absent), stringified by `new URL`. -/
def parseGitHubUrlJS (v : JSValue) : Option RepoRef :=
  parseGitHubUrl (jsToString v)

/-- Written to the spec's words (section 4.1 / section 8): the input
matches `https://(www.)?github.com/<owner>/<repo>...` iff it parses as
an absolute URL, its hostname (case-insensitive, optional leading
`www.`) equals `github.com`, and its path has at least two non-empty
segments. -/
def specUrlMatches (s : String) : Bool :=
  match jsNewURL s with
  | .error _ => false
  | .ok u =>
    (u.hostname = "github.com" || u.hostname = "www.github.com")
      && 2 ≤ (pathSegments u.pathname).length

/-! ## The cache (src/server.js line 23)

`new NodeCache({ stdTTL: 3600 })`, modelled as an association list of
entries carrying their absolute expiry instant.  `NodeCache.set`
stores `now + stdTTL` as the expiry; `NodeCache.get` returns the value
while `now ≤ expiry` and behaves as a miss afterwards (the library
additionally deletes the stale entry, which is observationally
irrelevant because `set` overwrites).  Time is a `Nat` in seconds. -/

/-- The fixed time-to-live passed to `NodeCache` (seconds). -/
def stdTTL : Nat := 3600

/-- One cache entry: key `"owner/repo"`, raw Markdown value, absolute
expiry instant. -/
structure CacheEntry where
  key : String
  value : String
  expiresAt : Nat
deriving DecidableEq

/-- The in-memory cache state. -/
abbrev Cache := List CacheEntry

/-- `cache.get(key)` at instant `now`: the stored value while it has
not expired, otherwise a miss (`undefined`, modelled as `none`). -/
def cacheGet : Cache → String → Nat → Option String
  | [], _, _ => none
  | e :: rest, k, now =>
    if e.key = k then (if now ≤ e.expiresAt then some e.value else none)
    else cacheGet rest k now

/-- `cache.set(key, value)` at instant `now`: overwrite any entry for
`key` with one expiring at `now + stdTTL`. -/
def cacheSet (c : Cache) (k v : String) (now : Nat) : Cache :=
  ⟨k, v, now + stdTTL⟩ :: c.filter (fun e => e.key ≠ k)

/-! ## The readme fetcher (src/server.js lines 39–65) -/

/-- An error thrown by the Octokit upstream request; `status` is the
HTTP status the endpoint's catch block inspects (`error.status`),
absent for non-HTTP failures. -/
structure UpstreamErr where
  status : Option Nat
deriving DecidableEq

/-- The upstream GitHub API (`GET /repos/{owner}/{repo}/readme` with
the raw-content accept header), as an oracle from owner and repo to
either the raw Markdown or a thrown error. -/
def Upstream : Type := String → String → Except UpstreamErr String

/-- Observable outcome of one `fetchRepoReadme` call: the returned (or
thrown) result, the cache state afterwards, and whether the upstream
API was called. -/
structure FetchOut where
  result : Except UpstreamErr String
  cache : Cache
  calledUpstream : Bool

/-- JavaScript truthiness of `cache.get`'s result, as tested by
`if (cachedData)`: `undefined` and the empty string are falsy. -/
def jsTruthyStr : Option String → Bool
  | none => false
  | some v => v ≠ ""

/-- `fetchRepoReadme(owner, repo)` from src/server.js: build the key
`owner/repo`; if `cache.get` yields a truthy value return it without
an upstream call; otherwise perform the upstream request, propagating
a thrown error unchanged, and on success store the data in the cache
and return it. -/
def fetchRepoReadme (up : Upstream) (c : Cache) (now : Nat)
    (owner repo : String) : FetchOut :=
  let cacheKey := owner ++ "/" ++ repo
  let cachedData := cacheGet c cacheKey now
  if jsTruthyStr cachedData then
    ⟨.ok (cachedData.getD ""), c, false⟩
  else
    match up owner repo with
    | .error e => ⟨.error e, c, true⟩
    | .ok data => ⟨.ok data, cacheSet c cacheKey data now, true⟩

/-! ## The `marked` Markdown renderer (model)

`marked.parse` is a third-party library; the model covers the
constructs the verification relies on: blank-line-separated blocks,
ATX headings, raw-HTML blocks passed through verbatim, and paragraphs
whose inline text (including any embedded HTML tags) is emitted
unchanged — `marked` does not escape or strip inline HTML, which is
exactly why the server sanitizes afterwards.  Each rendered block ends
with a newline, as in `marked` (`marked.parse("hi") = "<p>hi</p>\n"`). -/

/-- A line consisting only of spaces and tabs separates blocks. -/
def isBlankLine (l : List Char) : Bool :=
  l.all (fun c => c = ' ' || c = '\t')

/-- Group the lines of the document into blocks of consecutive
non-blank lines (`cur` holds the current block, reversed). -/
def groupBlocksAux (cur : List (List Char)) :
    List (List Char) → List (List (List Char))
  | [] => if cur = [] then [] else [cur.reverse]
  | l :: rest =>
    if isBlankLine l then
      if cur = [] then groupBlocksAux [] rest
      else cur.reverse :: groupBlocksAux [] rest
    else groupBlocksAux (l :: cur) rest

/-- Blocks of a Markdown document: runs of non-blank lines. -/
def groupBlocks (lines : List (List Char)) : List (List (List Char)) :=
  groupBlocksAux [] lines

/-- Join the lines of a block back together with newlines. -/
def joinLines : List (List Char) → List Char
  | [] => []
  | [l] => l
  | l :: rest => l ++ '\n' :: joinLines rest

/-- Recognise an ATX heading: one to six `#` followed by a space;
returns the level and the heading text. -/
def headingSplit (l : List Char) : Option (Nat × List Char) :=
  let hashes := l.takeWhile (fun c => c = '#')
  if 1 ≤ hashes.length ∧ hashes.length ≤ 6 then
    match l.dropWhile (fun c => c = '#') with
    | ' ' :: body => some (hashes.length, body)
    | _ => none
  else none

/-- Render one block's text: heading, raw-HTML passthrough (text
starting with `<`), or paragraph with the inline text kept verbatim. -/
def renderText (text : List Char) : List Char :=
  match headingSplit text with
  | some (n, body) =>
    ['<', 'h', Char.ofNat (n + 48), '>'] ++ body
      ++ ['<', '/', 'h', Char.ofNat (n + 48), '>', '\n']
  | none =>
    if text.head? = some '<' then text ++ ['\n']
    else ['<', 'p', '>'] ++ text ++ ['<', '/', 'p', '>', '\n']

/-- Render one block: join its lines and render the text. -/
def renderBlock (ls : List (List Char)) : List Char :=
  renderText (joinLines ls)

/-- Model of `marked.parse`: split into lines, group into blocks,
render each block. -/
def markedParse (md : String) : String :=
  String.mk (((groupBlocks (splitList '\n' md.data)).map renderBlock).flatten)

/-! ## HTML tokenizer (model of the DOM parse inside DOMPurify)

`DOMPurify.sanitize` parses its input into a DOM, filters it, and
serialises it back.  The model works on a flat token stream — tags
with lowercased names and attribute lists, and text runs — which is
enough structure to express and enforce the sanitizer's guarantees.
The tokenizer consumes at least one character per emitted token, so
running it with `fuel = input length` is exhaustive. -/

/-- An HTML token: a text run, an opening tag with its attributes, or
a closing tag. -/
inductive HtmlTok where
  | text (s : String)
  | openTag (name : String) (attrs : List (String × String))
  | closeTag (name : String)
deriving DecidableEq

/-- Characters of a tag name. -/
def isNameChar (c : Char) : Bool := isUrlAlpha c || c.isDigit

/-- HTML whitespace. -/
def isWsChar (c : Char) : Bool :=
  c = ' ' || c = '\t' || c = '\n' || c = '\r'

/-- Characters of an attribute name (anything but whitespace and
attribute/tag punctuation). -/
def isAttrNameChar (c : Char) : Bool :=
  ¬(isWsChar c || c = '=' || c = '>' || c = '/' || c = '"' || c = '\'')

/-- Lowercase a name character list into a `String`. -/
def lcName (l : List Char) : String := String.mk (l.map Char.toLower)

/-- Lex the attribute section of an open tag, up to and including the
closing `>`: returns the attributes (names lowercased) and the
remaining input.  Every step consumes at least one character, so
`fuel = input length` never runs out. -/
def lexAttrsAux : Nat → List Char → List (String × String) × List Char
  | fuel, l =>
    match l with
    | [] => ([], [])
    | c :: rest =>
      match fuel with
      | 0 => ([], c :: rest)
      | fuel + 1 =>
        if c = '>' then ([], rest)
        else if isWsChar c || c = '/' then lexAttrsAux fuel rest
        else if ¬isAttrNameChar c then lexAttrsAux fuel rest
        else
          let name := (c :: rest).takeWhile isAttrNameChar
          let after := (c :: rest).dropWhile isAttrNameChar
          match after with
          | '=' :: '"' :: v =>
            let val := v.takeWhile (fun x => ¬(x = '"'))
            let next := lexAttrsAux fuel ((v.dropWhile (fun x => ¬(x = '"'))).drop 1)
            ((lcName name, String.mk val) :: next.1, next.2)
          | '=' :: '\'' :: v =>
            let val := v.takeWhile (fun x => ¬(x = '\''))
            let next := lexAttrsAux fuel ((v.dropWhile (fun x => ¬(x = '\''))).drop 1)
            ((lcName name, String.mk val) :: next.1, next.2)
          | '=' :: v =>
            let val := v.takeWhile (fun x => ¬(isWsChar x || x = '>'))
            let next := lexAttrsAux fuel (v.dropWhile (fun x => ¬(isWsChar x || x = '>')))
            ((lcName name, String.mk val) :: next.1, next.2)
          | _ =>
            let next := lexAttrsAux fuel after
            ((lcName name, "") :: next.1, next.2)

/-- Attribute lexer with exhaustive fuel. -/
def lexAttrs (l : List Char) : List (String × String) × List Char :=
  lexAttrsAux l.length l

/-- Tokenise an HTML character stream.  Each step emits a token and
consumes at least one character, so `fuel = input length` suffices. -/
def lexHtmlAux : Nat → List Char → List HtmlTok
  | fuel, l =>
    match l with
    | [] => []
    | c :: rest =>
      match fuel with
      | 0 => [.text (String.mk (c :: rest))]
      | fuel + 1 =>
        if c = '<' then
          match rest with
          | [] => [.text "<"]
          | c2 :: rest2 =>
            if c2 = '/' then
              let name := rest2.takeWhile isNameChar
              let after := (rest2.dropWhile isNameChar).dropWhile (fun x => ¬(x = '>'))
              .closeTag (lcName name) :: lexHtmlAux fuel (after.drop 1)
            else if isUrlAlpha c2 then
              let name := (c2 :: rest2).takeWhile isNameChar
              let lexed := lexAttrs ((c2 :: rest2).dropWhile isNameChar)
              .openTag (lcName name) lexed.1 :: lexHtmlAux fuel lexed.2
            else
              .text "<" :: lexHtmlAux fuel rest
        else
          let t := (c :: rest).takeWhile (fun x => ¬(x = '<'))
          .text (String.mk t) ::
            lexHtmlAux fuel ((c :: rest).dropWhile (fun x => ¬(x = '<')))

/-- HTML tokenizer with exhaustive fuel. -/
def lexHtml (l : List Char) : List HtmlTok := lexHtmlAux l.length l

/-! ## The DOMPurify sanitizer (model)

Models DOMPurify's documented contract: an allowlist of tags and of
attribute names (so `<script>`, every `on*` event-handler attribute,
and every unknown tag/attribute are removed), removal of the entire
content of raw-text elements such as `<script>`/`<style>`, and
rejection of `javascript:` URLs in URL-valued attributes even when
disguised by case or embedded control characters. -/

/-- Structural and formatting tags DOMPurify keeps (a sublist of its
default allowlist; `script` is not in it). -/
def allowedTags : List String :=
  ["a", "b", "blockquote", "br", "code", "div", "em", "h1", "h2", "h3",
   "h4", "h5", "h6", "hr", "i", "img", "li", "ol", "p", "pre", "span",
   "strong", "table", "tbody", "td", "th", "thead", "tr", "u", "ul"]

/-- Disallowed elements whose whole content is dropped, not just the
tags. -/
def rawTextTags : List String := ["script", "style"]

/-- Attribute names DOMPurify keeps (a sublist of its default
allowlist; no `on*` name is in it). -/
def allowedAttrNames : List String :=
  ["alt", "class", "colspan", "height", "href", "id", "rowspan",
   "src", "title", "width"]

/-- An inline event-handler attribute name (`on*`). -/
def isEventName (n : String) : Bool :=
  match n.data with
  | 'o' :: 'n' :: _ => true
  | _ => false

/-- `listStarts p l`: `p` is an initial segment of `l`. -/
def listStarts : List Char → List Char → Bool
  | [], _ => true
  | _ :: _, [] => false
  | p :: ps, c :: cs => p = c && listStarts ps cs

/-- A `javascript:` URL, detected after removing ASCII controls and
spaces and lowercasing (defeating `jAvAsCriPt:` and `java\tscript:`
style obfuscation). -/
def isJsUrl (v : String) : Bool :=
  listStarts "javascript:".data
    ((v.data.filter (fun c => 32 < c.toNat)).map Char.toLower)

/-- Attribute names whose value is a URL. -/
def isUrlAttrName (n : String) : Bool := n = "href" || n = "src"

/-- Keep an attribute iff its name is allowlisted and, for URL-valued
attributes, the value is not a `javascript:` URL. -/
def attrOk (a : String × String) : Bool :=
  decide (a.1 ∈ allowedAttrNames) && !(isUrlAttrName a.1 && isJsUrl a.2)

/-- Filter the attributes of a kept tag. -/
def sanitizeAttrs (attrs : List (String × String)) :
    List (String × String) :=
  attrs.filter attrOk

/-- Sanitize the token stream.  When `skip = some n` the sanitizer is
inside a disallowed raw-text element `n` and drops everything up to
its closing tag. -/
def sanitizeAux : Option String → List HtmlTok → List HtmlTok
  | _, [] => []
  | some n, .closeTag m :: rest =>
    if m = n then sanitizeAux none rest else sanitizeAux (some n) rest
  | some n, _ :: rest => sanitizeAux (some n) rest
  | none, .text s :: rest => .text s :: sanitizeAux none rest
  | none, .openTag n attrs :: rest =>
    if n ∈ allowedTags then
      .openTag n (sanitizeAttrs attrs) :: sanitizeAux none rest
    else if n ∈ rawTextTags then sanitizeAux (some n) rest
    else sanitizeAux none rest
  | none, .closeTag n :: rest =>
    if n ∈ allowedTags then .closeTag n :: sanitizeAux none rest
    else sanitizeAux none rest

/-- The sanitizer on a token stream. -/
def sanitizeToks (ts : List HtmlTok) : List HtmlTok := sanitizeAux none ts

/-- Escape a character of a text node for serialisation. -/
def escTextChar : Char → List Char
  | '&' => "&amp;".data
  | '<' => "&lt;".data
  | '>' => "&gt;".data
  | c => [c]

/-- Escape a character of a double-quoted attribute value. -/
def escAttrChar : Char → List Char
  | '&' => "&amp;".data
  | '"' => "&quot;".data
  | '<' => "&lt;".data
  | c => [c]

/-- Serialise one attribute as ` name="value"`. -/
def serializeAttr (a : String × String) : List Char :=
  ' ' :: a.1.data ++ '=' :: '"' :: (a.2.data.map escAttrChar).flatten ++ ['"']

/-- Serialise one token back to HTML text. -/
def serializeTok : HtmlTok → List Char
  | .text s => (s.data.map escTextChar).flatten
  | .openTag n attrs => '<' :: n.data ++ (attrs.map serializeAttr).flatten ++ ['>']
  | .closeTag n => '<' :: '/' :: n.data ++ ['>']

/-- Serialise a token stream to an HTML string. -/
def serializeToks (ts : List HtmlTok) : String :=
  String.mk ((ts.map serializeTok).flatten)

/-- Model of `createDOMPurify.sanitize`: parse, filter, serialise. -/
def dompurifySanitize (html : String) : String :=
  serializeToks (sanitizeToks (lexHtml html.data))

/-- The render pipeline of the endpoint (src/server.js lines 106–111):
`marked.parse` followed by `DOMPurify.sanitize`. -/
def renderPipeline (md : String) : String :=
  dompurifySanitize (markedParse md)

/-! ## The HTTP endpoint (src/server.js lines 91–131) -/

/-- A JSON response body: `{error}` or `{html}`. -/
inductive RespBody where
  | errMsg (s : String)
  | htmlOut (s : String)
deriving DecidableEq

/-- An HTTP response: status code and JSON body. -/
structure Response where
  status : Nat
  body : RespBody
deriving DecidableEq

/-- The 400 message of the endpoint. -/
def invalidUrlMsg : String := "Invalid URL. Format: https://github.com/:owner/:repo"

/-- The 404 message of the endpoint. -/
def notFoundMsg : String := "Repository or Readme not found."

/-- The 429 message of the endpoint. -/
def rateLimitMsg : String := "GitHub API rate limit exceeded."

/-- The 500 message of the global error middleware. -/
def internalErrMsg : String := "Internal Server Error"

/-- The `POST /api/fetch-readme` handler together with the global
error middleware: parse the `url` body field (absent modelled as
`undefined`); on parse failure respond 400; otherwise fetch the
readme; map a thrown error by its `status` field (404 → 404,
403/429 → 429, anything else falls through `next(error)` to the
500 middleware); on success render the Markdown and respond 200. -/
def handleFetchReadme (up : Upstream) (c : Cache) (now : Nat)
    (url : JSValue) : Response × Cache :=
  match parseGitHubUrlJS url with
  | none => (⟨400, .errMsg invalidUrlMsg⟩, c)
  | some repoInfo =>
    let fo := fetchRepoReadme up c now repoInfo.owner repoInfo.repo
    match fo.result with
    | .ok markdown => (⟨200, .htmlOut (renderPipeline markdown)⟩, fo.cache)
    | .error e =>
      if e.status = some 404 then (⟨404, .errMsg notFoundMsg⟩, fo.cache)
      else if e.status = some 403 ∨ e.status = some 429 then
        (⟨429, .errMsg rateLimitMsg⟩, fo.cache)
      else (⟨500, .errMsg internalErrMsg⟩, fo.cache)

/-! ## The spec's outcome taxonomy (spec section 7) -/

/-- The error taxonomy of spec section 7 plus the success outcome. -/
inductive Outcome where
  | invalidInput
  | notFound
  | rateLimited
  | unexpected
  | success (html : String)
deriving DecidableEq

/-- Classify a request per the spec's words: `InvalidInput` (bad URL),
`NotFound` (upstream 404), `RateLimited` (upstream 403/429),
`Unexpected` (anything else), success with the rendered HTML. -/
def specOutcome (up : Upstream) (c : Cache) (now : Nat)
    (url : JSValue) : Outcome :=
  match parseGitHubUrlJS url with
  | none => .invalidInput
  | some r =>
    match (fetchRepoReadme up c now r.owner r.repo).result with
    | .ok md => .success (renderPipeline md)
    | .error e =>
      if e.status = some 404 then .notFound
      else if e.status = some 403 ∨ e.status = some 429 then .rateLimited
      else .unexpected

/-- The response the spec assigns to each outcome (sections 6 and 7):
the single response for that outcome, with no internal detail in the
500 body. -/
def specResponse : Outcome → Response
  | .invalidInput => ⟨400, .errMsg invalidUrlMsg⟩
  | .notFound => ⟨404, .errMsg notFoundMsg⟩
  | .rateLimited => ⟨429, .errMsg rateLimitMsg⟩
  | .unexpected => ⟨500, .errMsg internalErrMsg⟩
  | .success h => ⟨200, .htmlOut h⟩

/-! ## Supporting lemmas -/

/-- String equality is equality of the underlying character lists. -/
theorem string_eq_iff_data (s t : String) : s = t ↔ s.data = t.data := by
  constructor
  · intro h; rw [h]
  · intro h
    cases s
    cases t
    exact congrArg String.mk h

/-- `fetchRepoReadme` either leaves the cache alone or stores one
fetched value under the request's key. -/
theorem fetch_cache_cases (up : Upstream) (c : Cache) (now : Nat)
    (owner repo : String) :
    (fetchRepoReadme up c now owner repo).cache = c ∨
      ∃ d, (fetchRepoReadme up c now owner repo).cache
        = cacheSet c (owner ++ "/" ++ repo) d now := by
  unfold fetchRepoReadme
  by_cases h : jsTruthyStr (cacheGet c (owner ++ "/" ++ repo) now)
  · simp [h]
  · simp only [h, if_false, Bool.false_eq_true]
    cases up owner repo with
    | error e => simp
    | ok d => exact Or.inr ⟨d, rfl⟩

/-! ## Claim theorems: cache and fetcher -/

/-- C6: an entry stored at instant `t` is returned by a get at any
instant `t' ≤ t + 3600` and never by a get at an instant
`t' > t + 3600`; and the endpoint never removes cache entries other
than by this automatic expiry — every request either leaves the cache
unchanged or stores one freshly fetched value with the fixed TTL (no
manual invalidation is exposed). -/
theorem cache_ttl_expiry :
    (∀ (c : Cache) (k v : String) (t t' : Nat), t' ≤ t + stdTTL →
      cacheGet (cacheSet c k v t) k t' = some v) ∧
    (∀ (c : Cache) (k v : String) (t t' : Nat), t + stdTTL < t' →
      cacheGet (cacheSet c k v t) k t' = none) ∧
    (∀ (up : Upstream) (c : Cache) (now : Nat) (u : JSValue),
      (handleFetchReadme up c now u).2 = c ∨
      ∃ k d, (handleFetchReadme up c now u).2 = cacheSet c k d now) := by
  refine ⟨fun c k v t t' h => ?_, fun c k v t t' h => ?_, fun up c now u => ?_⟩
  · simp [cacheGet, cacheSet, h]
  · simp [cacheGet, cacheSet, h, Nat.not_le_of_lt h]
  · cases hp : parseGitHubUrlJS u with
    | none =>
      left
      unfold handleFetchReadme
      rw [hp]
    | some r =>
      have hsnd : (handleFetchReadme up c now u).2
          = (fetchRepoReadme up c now r.owner r.repo).cache := by
        unfold handleFetchReadme
        rw [hp]
        dsimp only
        split
        · rfl
        · split
          · rfl
          · split <;> rfl
      rcases fetch_cache_cases up c now r.owner r.repo with hc | ⟨d, hc⟩
      · exact Or.inl (hsnd.trans hc)
      · exact Or.inr ⟨r.owner ++ "/" ++ r.repo, d, hsnd.trans hc⟩

/-- C6 witness: at 3600 seconds after the set the value is still
returned, at 3601 seconds it is gone. -/
theorem cache_ttl_expiry_witness :
    cacheGet (cacheSet [] "octocat/Hello-World" "# Hi" 100)
      "octocat/Hello-World" 3700 = some "# Hi" ∧
    cacheGet (cacheSet [] "octocat/Hello-World" "# Hi" 100)
      "octocat/Hello-World" 3701 = none :=
  ⟨cache_ttl_expiry.1 [] "octocat/Hello-World" "# Hi" 100 3700 (by decide),
   cache_ttl_expiry.2.1 [] "octocat/Hello-World" "# Hi" 100 3701 (by decide)⟩

/-- C5 counterexample: an empty string stored in the cache is a
present, unexpired entry, yet `fetchRepoReadme` calls upstream anyway,
because `if (cachedData)` tests JavaScript truthiness and `""` is
falsy. -/
theorem cache_hit_empty_counterexample :
    cacheGet (cacheSet [] "o/r" "" 0) "o/r" 1 = some "" ∧
    (fetchRepoReadme (fun _ _ => .ok "fresh") (cacheSet [] "o/r" "" 0)
        1 "o" "r").calledUpstream = true := by
  exact ⟨by decide, by decide⟩

/-- C5 (amended): for every key whose cached Markdown value is present
within the TTL window and non-empty, the fetch returns the cached
value, performs no upstream call, and leaves the cache unchanged. -/
theorem cache_hit_returns_cached (up : Upstream) (c : Cache) (now : Nat)
    (owner repo v : String)
    (hv : cacheGet c (owner ++ "/" ++ repo) now = some v) (hne : v ≠ "") :
    fetchRepoReadme up c now owner repo = ⟨.ok v, c, false⟩ := by
  unfold fetchRepoReadme
  simp [hv, jsTruthyStr, hne]

/-- C5 witness: a cached non-empty readme is served from the cache. -/
theorem cache_hit_returns_cached_witness :
    fetchRepoReadme (fun _ _ => .error ⟨none⟩)
        (cacheSet [] "a/b" "hello" 5) 10 "a" "b"
      = ⟨.ok "hello", cacheSet [] "a/b" "hello" 5, false⟩ :=
  cache_hit_returns_cached _ _ 10 "a" "b" "hello" (by decide) (by decide)

/-- C7: on a cache miss the fetcher calls upstream; a thrown upstream
error (with its HTTP status) is propagated unchanged and the cache is
left untouched; on upstream success the fetched Markdown is stored
under `owner/repo` and returned. -/
theorem cache_miss_fetch (up : Upstream) (c : Cache) (now : Nat)
    (owner repo : String)
    (hmiss : cacheGet c (owner ++ "/" ++ repo) now = none) :
    (∀ e, up owner repo = .error e →
      fetchRepoReadme up c now owner repo = ⟨.error e, c, true⟩) ∧
    (∀ d, up owner repo = .ok d →
      fetchRepoReadme up c now owner repo
        = ⟨.ok d, cacheSet c (owner ++ "/" ++ repo) d now, true⟩) := by
  unfold fetchRepoReadme
  constructor
  · intro e he
    simp [hmiss, jsTruthyStr, he]
  · intro d hd
    simp [hmiss, jsTruthyStr, hd]

/-- C7 witness: a 404 thrown upstream is propagated with its status
and an empty cache stays empty. -/
theorem cache_miss_fetch_witness :
    fetchRepoReadme (fun _ _ => .error ⟨some 404⟩) [] 0 "a" "b"
      = ⟨.error ⟨some 404⟩, [], true⟩ :=
  (cache_miss_fetch (fun _ _ => .error ⟨some 404⟩) [] 0 "a" "b" rfl).1
    ⟨some 404⟩ rfl

/-! ## Claim theorems: endpoint -/

/-- C2: the endpoint maps every request outcome to exactly the
response the spec's taxonomy assigns it: invalid URL → 400 with the
invalid-format message, upstream 404 → 404 with the not-found message,
upstream 403/429 → 429 with the rate-limit message, any other failure
→ 500 with the generic message and no internal detail, success → 200
with the rendered HTML. -/
theorem endpoint_response_taxonomy (up : Upstream) (c : Cache)
    (now : Nat) (u : JSValue) :
    (handleFetchReadme up c now u).1
      = specResponse (specOutcome up c now u) := by
  unfold handleFetchReadme specOutcome
  cases hp : parseGitHubUrlJS u with
  | none => rfl
  | some r =>
    dsimp only
    cases hres : (fetchRepoReadme up c now r.owner r.repo).result with
    | ok md => simp [hres, specResponse]
    | error e =>
      simp only [hres]
      by_cases h4 : e.status = some 404
      · simp [h4, specResponse]
      · by_cases h9 : e.status = some 403 ∨ e.status = some 429 <;>
          simp [h4, h9, specResponse]

/-- C10: `parseGitHubUrl` is total on arbitrary body values — it
returns a `RepoRef` or `none` and never throws (the `URL`
constructor's throw is caught inside); in particular `undefined`
(absent `url` field), `null` and numeric bodies parse to `none`, so a
`POST` without a `url` field gets the 400 invalid-URL response, not a
500. -/
theorem parse_total_missing_url_400 :
    (∀ v : JSValue, parseGitHubUrlJS v = none ∨
      ∃ r : RepoRef, parseGitHubUrlJS v = some r) ∧
    parseGitHubUrlJS .undef = none ∧
    parseGitHubUrlJS .jsNull = none ∧
    parseGitHubUrlJS (.num 42) = none ∧
    (∀ (up : Upstream) (c : Cache) (now : Nat),
      handleFetchReadme up c now .undef = (⟨400, .errMsg invalidUrlMsg⟩, c)) := by
  refine ⟨fun v => ?_, by decide, by decide, by decide, fun up c now => ?_⟩
  · cases h : parseGitHubUrlJS v
    · exact Or.inl rfl
    · exact Or.inr ⟨_, rfl⟩
  · unfold handleFetchReadme
    rw [show parseGitHubUrlJS .undef = none from by decide]

/-! ## Claim theorems: URL parser -/

/-- The host check of `parseGitHubUrl` — strip one leading `www.` and
compare with `github.com` — accepts exactly the hostnames
`github.com` and `www.github.com`. -/
theorem stripWww_eq_github (h : String) :
    stripWww h = "github.com" ↔ h = "github.com" ∨ h = "www.github.com" := by
  constructor
  · intro hs
    unfold stripWww at hs
    revert hs
    split
    · intro hs
      right
      rename_i t heq
      rw [string_eq_iff_data, heq]
      rw [string_eq_iff_data] at hs
      rw [show (String.mk t).data = t from rfl] at hs
      show 'w' :: 'w' :: 'w' :: '.' :: t = "www.github.com".data
      rw [hs]
    · intro hs
      exact Or.inl hs
  · intro hor
    rcases hor with rfl | rfl
    · rfl
    · rfl

/-- Every member of `pathSegments` is a non-empty string
(`filter(Boolean)` removed the empty ones). -/
theorem pathSegments_ne_empty (p : String) :
    ∀ x ∈ pathSegments p, x ≠ "" := by
  intro x hx
  unfold pathSegments at hx
  rw [List.mem_filter] at hx
  simpa using hx.2

/-- C3: every input that does not match the spec's pattern — not an
absolute URL, or hostname (case-insensitive, optional leading `www.`)
different from `github.com`, or fewer than two non-empty path
segments — is rejected by `parseGitHubUrl` with the invalid signal
`none`. -/
theorem nonmatching_url_parses_none (s : String)
    (h : specUrlMatches s = false) : parseGitHubUrl s = none := by
  unfold parseGitHubUrl
  unfold specUrlMatches at h
  cases hu : jsNewURL s with
  | error e => rfl
  | ok u =>
    rw [hu] at h
    dsimp only at h ⊢
    by_cases hh : stripWww u.hostname = "github.com"
    · have hlen : (pathSegments u.pathname).length < 2 := by
        rcases (stripWww_eq_github u.hostname).mp hh with h1 | h1 <;>
          · rw [h1] at h
            simp at h
            all_goals omega
      simp [hh, hlen]
    · simp [hh]

/-- C3 witness: `not-a-url` does not match the pattern and is
rejected. -/
theorem nonmatching_url_parses_none_witness :
    specUrlMatches "not-a-url" = false ∧ parseGitHubUrl "not-a-url" = none :=
  ⟨by decide, nonmatching_url_parses_none "not-a-url" (by decide)⟩

/-- C4: for every URL that parses with an accepted hostname
(`github.com`, optionally with a leading `www.`) and at least two
non-empty path segments, `parseGitHubUrl` returns the first two
segments as owner and repo, ignoring any further segments. -/
theorem parse_valid_github_url (s : String) (u : URLRec)
    (hu : jsNewURL s = .ok u)
    (hhost : u.hostname = "github.com" ∨ u.hostname = "www.github.com")
    (hlen : 2 ≤ (pathSegments u.pathname).length) :
    parseGitHubUrl s
      = some ⟨(pathSegments u.pathname).getD 0 "",
              (pathSegments u.pathname).getD 1 ""⟩ := by
  unfold parseGitHubUrl
  rw [hu]
  have hs : stripWww u.hostname = "github.com" :=
    (stripWww_eq_github u.hostname).mpr hhost
  simp [hs, Nat.not_lt.mpr hlen]

/-- C4 witness: `https://github.com/octocat/Hello-World` parses to
`{owner: "octocat", repo: "Hello-World"}`. -/
theorem parse_valid_github_url_witness :
    parseGitHubUrl "https://github.com/octocat/Hello-World"
      = some ⟨"octocat", "Hello-World"⟩ := by
  have h := parse_valid_github_url "https://github.com/octocat/Hello-World"
    ⟨"github.com", "/octocat/Hello-World"⟩ rfl (Or.inl rfl) (by decide)
  rw [h]
  decide

/-- C9: whenever `parseGitHubUrl` succeeds, owner and repo are
non-empty strings, taken from a parsed URL path with at least two
non-empty segments (the first and the second). -/
theorem parse_success_shape (s : String) (r : RepoRef)
    (h : parseGitHubUrl s = some r) :
    r.owner ≠ "" ∧ r.repo ≠ "" ∧
    ∃ u, jsNewURL s = .ok u ∧ 2 ≤ (pathSegments u.pathname).length ∧
      r.owner = (pathSegments u.pathname).getD 0 "" ∧
      r.repo = (pathSegments u.pathname).getD 1 "" := by
  unfold parseGitHubUrl at h
  cases hu : jsNewURL s with
  | error e => rw [hu] at h; exact absurd h (by simp)
  | ok u =>
    rw [hu] at h
    dsimp only at h
    by_cases hh : stripWww u.hostname = "github.com"
    · by_cases hl : (pathSegments u.pathname).length < 2
      · simp [hh, hl] at h
      · simp only [hh, ne_eq, not_true_eq_false, if_false, hl] at h
        have hlen : 2 ≤ (pathSegments u.pathname).length := Nat.not_lt.mp hl
        obtain rfl : (⟨(pathSegments u.pathname).getD 0 "",
            (pathSegments u.pathname).getD 1 ""⟩ : RepoRef) = r := by
          simpa using h
        have h0 : (pathSegments u.pathname).getD 0 "" ∈ pathSegments u.pathname := by
          rw [List.getD_eq_getElem _ _ (by omega)]
          exact List.getElem_mem _
        have h1 : (pathSegments u.pathname).getD 1 "" ∈ pathSegments u.pathname := by
          rw [List.getD_eq_getElem _ _ (by omega)]
          exact List.getElem_mem _
        exact ⟨pathSegments_ne_empty _ _ h0, pathSegments_ne_empty _ _ h1,
          u, rfl, hlen, rfl, rfl⟩
    · simp [hh] at h

/-- C9 witness: the shape properties at a concrete successful parse. -/
theorem parse_success_shape_witness :
    ("octocat" : String) ≠ "" ∧ ("Hello-World" : String) ≠ "" ∧
    ∃ u, jsNewURL "https://github.com/octocat/Hello-World" = .ok u ∧
      2 ≤ (pathSegments u.pathname).length ∧
      "octocat" = (pathSegments u.pathname).getD 0 "" ∧
      "Hello-World" = (pathSegments u.pathname).getD 1 "" :=
  parse_success_shape "https://github.com/octocat/Hello-World"
    ⟨"octocat", "Hello-World"⟩ (by decide)

/-! ## Claim theorems: render pipeline -/

/-- The executable-script-freedom property of one HTML token, exactly
as claim C1 reads: not a `<script>` tag, no `on*` event-handler
attribute, no `javascript:` URL in a URL-valued attribute. -/
def safeTok : HtmlTok → Bool
  | .text _ => true
  | .closeTag n => n ≠ "script"
  | .openTag n attrs =>
    n ≠ "script" &&
      attrs.all (fun a => !isEventName a.1 && !(isUrlAttrName a.1 && isJsUrl a.2))

/-- No allowlisted tag is `script`. -/
theorem allowed_tag_not_script (n : String) (h : n ∈ allowedTags) :
    n ≠ "script" := by
  fin_cases h <;> decide

/-- No allowlisted attribute name is an `on*` event handler. -/
theorem allowed_attr_not_event (n : String) (h : n ∈ allowedAttrNames) :
    isEventName n = false := by
  fin_cases h <;> decide

/-- Every attribute surviving the filter is safe: not an event
handler, and not a `javascript:` URL in a URL attribute. -/
theorem sanitizeAttrs_safe (attrs : List (String × String)) :
    ∀ a ∈ sanitizeAttrs attrs,
      (!isEventName a.1 && !(isUrlAttrName a.1 && isJsUrl a.2)) = true := by
  intro a ha
  unfold sanitizeAttrs at ha
  rw [List.mem_filter] at ha
  have hok := ha.2
  unfold attrOk at hok
  simp only [Bool.and_eq_true, decide_eq_true_eq, Bool.not_eq_true'] at hok
  simp only [Bool.and_eq_true, Bool.not_eq_true']
  exact ⟨allowed_attr_not_event a.1 hok.1, hok.2⟩

/-- Every token the sanitizer emits, in any mode, is safe. -/
theorem sanitizeAux_all_safe (ts : List HtmlTok) :
    ∀ mode : Option String, (sanitizeAux mode ts).all safeTok = true := by
  induction ts with
  | nil => intro mode; cases mode <;> rfl
  | cons t rest ih =>
    intro mode
    cases mode with
    | some n =>
      cases t with
      | text s => simpa [sanitizeAux] using ih (some n)
      | openTag m attrs => simpa [sanitizeAux] using ih (some n)
      | closeTag m =>
        by_cases h : m = n <;> simp [sanitizeAux, h, ih none, ih (some n)]
    | none =>
      cases t with
      | text s => simpa [sanitizeAux, safeTok] using ih none
      | closeTag m =>
        by_cases h : m ∈ allowedTags
        · simpa [sanitizeAux, h, safeTok, allowed_tag_not_script m h]
            using ih none
        · simpa [sanitizeAux, h] using ih none
      | openTag m attrs =>
        by_cases h : m ∈ allowedTags
        · simp only [sanitizeAux, h, if_true, List.all_cons, Bool.and_eq_true]
          refine ⟨?_, ih none⟩
          simp only [safeTok, Bool.and_eq_true]
          refine ⟨by simpa using allowed_tag_not_script m h, ?_⟩
          rw [List.all_eq_true]
          exact sanitizeAttrs_safe attrs
        · by_cases h2 : m ∈ rawTextTags
          · simpa [sanitizeAux, h, h2] using ih (some m)
          · simpa [sanitizeAux, h, h2] using ih none

/-- C1: whatever the Markdown input — including crafted script
vectors — every token of the sanitized render-pipeline output is free
of executable script (no `<script>` tag, no `on*` event-handler
attribute, no `javascript:` URL), the pipeline's HTML string is
exactly the serialisation of those safe tokens, and the canonical
attack `<script>alert(1)</script>` renders to just a newline. -/
theorem render_pipeline_no_executable_script (md : String) :
    ((sanitizeToks (lexHtml (markedParse md).data)).all safeTok = true) ∧
    renderPipeline md
      = serializeToks (sanitizeToks (lexHtml (markedParse md).data)) ∧
    renderPipeline "<script>alert(1)</script>" = "\n" :=
  ⟨sanitizeAux_all_safe _ none, rfl, by decide⟩

/-! ## Plain-text round-trip (claim C8) -/

/-- Plain-text Markdown with no special syntax: non-empty, only
letters and inner spaces, starting and ending with a letter (so no
heading marker, no raw HTML, no indented code, no escaping-relevant
character, no trailing whitespace that `marked` would trim). -/
def plainMarkdown (md : String) : Bool :=
  md.data.all (fun c => c.isAlpha || c = ' ')
    && (match md.data.head? with | some c => c.isAlpha | none => false)
    && (match md.data.getLast? with | some c => c.isAlpha | none => false)

/-- A letter is none of the structurally meaningful characters. -/
theorem alpha_not_special (c : Char) (hc : c.isAlpha = true) :
    ¬(c = ' ') ∧ ¬(c = '\t') ∧ ¬(c = '#') ∧ ¬(c = '<') ∧ ¬(c = '\n') := by
  refine ⟨?_, ?_, ?_, ?_, ?_⟩ <;>
    (intro h; rw [h] at hc; exact absurd hc (by decide))

/-- A plain character (letter or space) is not structural and escapes
to itself. -/
theorem plain_char_props (x : Char) (hx : (x.isAlpha || x = ' ') = true) :
    ¬(x = '\n') ∧ ¬(x = '<') ∧ escTextChar x = [x] := by
  have h1 : ¬(x = '&') := by intro h; rw [h] at hx; exact absurd hx (by decide)
  have h2 : ¬(x = '<') := by intro h; rw [h] at hx; exact absurd hx (by decide)
  have h3 : ¬(x = '>') := by intro h; rw [h] at hx; exact absurd hx (by decide)
  have h4 : ¬(x = '\n') := by intro h; rw [h] at hx; exact absurd hx (by decide)
  refine ⟨h4, h2, ?_⟩
  unfold escTextChar
  split
  · exact absurd rfl h1
  · exact absurd rfl h2
  · exact absurd rfl h3
  · rfl

/-- Splitting at a separator that does not occur gives back the whole
list as the single piece. -/
theorem splitList_of_no_sep (c : Char) (l : List Char)
    (h : ∀ x ∈ l, ¬(x = c)) : splitList c l = [l] := by
  induction l with
  | nil => rfl
  | cons x xs ih =>
    have hx : ¬(x = c) := h x (List.mem_cons_self x xs)
    simp only [splitList, if_neg hx,
      ih (fun y hy => h y (List.mem_cons_of_mem x hy))]

/-- A single non-blank line forms a single block. -/
theorem groupBlocks_single (l : List Char) (h : isBlankLine l = false) :
    groupBlocks [l] = [[l]] := by
  simp [groupBlocks, groupBlocksAux, h]

/-- A line that does not start with `#` is not a heading. -/
theorem headingSplit_cons_not_hash (c : Char) (t : List Char)
    (h : ¬(c = '#')) : headingSplit (c :: t) = none := by
  simp [headingSplit, List.takeWhile_cons, h]

/-- A single line starting with anything but `#` or `<` renders as a
paragraph wrapping the text verbatim. -/
theorem renderBlock_paragraph (c : Char) (t : List Char)
    (hc1 : ¬(c = '#')) (hc2 : ¬(c = '<')) :
    renderBlock [c :: t]
      = ['<', 'p', '>'] ++ (c :: t) ++ ['<', '/', 'p', '>', '\n'] := by
  show renderText (joinLines [c :: t]) = _
  rw [show joinLines [c :: t] = c :: t from rfl]
  unfold renderText
  rw [headingSplit_cons_not_hash c t hc1]
  simp [hc2]

/-- `takeWhile` passes over a prefix it accepts entirely. -/
theorem takeWhile_append_all (p : Char → Bool) (l r : List Char)
    (h : ∀ x ∈ l, p x = true) :
    (l ++ r).takeWhile p = l ++ r.takeWhile p := by
  induction l with
  | nil => simp
  | cons x xs ih =>
    simp [List.takeWhile_cons, h x (List.mem_cons_self x xs),
      ih (fun y hy => h y (List.mem_cons_of_mem x hy))]

/-- `dropWhile` drops a prefix it accepts entirely. -/
theorem dropWhile_append_all (p : Char → Bool) (l r : List Char)
    (h : ∀ x ∈ l, p x = true) :
    (l ++ r).dropWhile p = r.dropWhile p := by
  induction l with
  | nil => simp
  | cons x xs ih =>
    simp [List.dropWhile_cons, h x (List.mem_cons_self x xs),
      ih (fun y hy => h y (List.mem_cons_of_mem x hy))]

/-- Lexing an attribute-free tag end: `>` immediately closes the
attribute section. -/
theorem lexAttrsAux_gt (f : Nat) (R : List Char) :
    lexAttrsAux (f + 1) ('>' :: R) = ([], R) := by
  rw [lexAttrsAux]
  rw [if_pos rfl]

/-- `lexAttrs` on `>` followed by anything: no attributes. -/
theorem lexAttrs_gt (R : List Char) : lexAttrs ('>' :: R) = ([], R) := by
  rw [lexAttrs]
  rw [show ('>' :: R).length = R.length + 1 from rfl]
  exact lexAttrsAux_gt R.length R

/-- Lexing the opening `<p>` of a paragraph. -/
theorem lexHtmlAux_open_p (f : Nat) (R : List Char) :
    lexHtmlAux (f + 1) ('<' :: 'p' :: '>' :: R)
      = .openTag "p" [] :: lexHtmlAux f R := by
  rw [lexHtmlAux]
  rw [if_pos rfl]
  rw [if_neg (by decide : ¬('p' = '/'))]
  rw [if_pos (by decide : isUrlAlpha 'p' = true)]
  dsimp only
  rw [show ('p' :: '>' :: R).takeWhile isNameChar = ['p'] from by
    simp [List.takeWhile_cons, isNameChar, isUrlAlpha]]
  rw [show ('p' :: '>' :: R).dropWhile isNameChar = '>' :: R from by
    simp [List.dropWhile_cons, isNameChar, isUrlAlpha]]
  rw [lexAttrs_gt]
  rfl

/-- Lexing the closing-paragraph tail. -/
theorem lexHtmlAux_close_p (f : Nat) :
    lexHtmlAux (f + 2) ['<', '/', 'p', '>', '\n']
      = [.closeTag "p", .text "\n"] := by
  rw [show f + 2 = (f + 1) + 1 from rfl]
  rw [lexHtmlAux]
  rw [if_pos rfl]
  rw [if_pos rfl]
  dsimp only
  rw [show (['p', '>', '\n'] : List Char).takeWhile isNameChar = ['p'] from by decide]
  rw [show ((['p', '>', '\n'] : List Char).dropWhile isNameChar).dropWhile
      (fun x => ¬(x = '>')) = ['>', '\n'] from by decide]
  rw [show (['>', '\n'] : List Char).drop 1 = ['\n'] from rfl]
  rw [show lcName ['p'] = "p" from rfl]
  rw [lexHtmlAux]
  rw [if_neg (by decide : ¬('\n' = '<'))]
  dsimp only
  rw [show (['\n'] : List Char).takeWhile (fun x => ¬(x = '<')) = ['\n'] from by decide]
  rw [show (['\n'] : List Char).dropWhile (fun x => ¬(x = '<')) = [] from by decide]
  rw [show lexHtmlAux f [] = [] from by rw [lexHtmlAux]]

/-- Lexing a text run (no `<` inside) followed by the closing tail. -/
theorem lexHtmlAux_text_tail (f : Nat) (c0 : Char) (s' : List Char)
    (h0 : ¬(c0 = '<')) (hs' : ∀ x ∈ s', ¬(x = '<')) :
    lexHtmlAux (f + 3) ((c0 :: s') ++ ['<', '/', 'p', '>', '\n'])
      = [.text (String.mk (c0 :: s')), .closeTag "p", .text "\n"] := by
  have hall : ∀ x ∈ c0 :: s', (fun x => (¬(x = '<') : Bool)) x = true := by
    intro x hx
    rcases List.mem_cons.mp hx with rfl | hx'
    · simpa using h0
    · simpa using hs' x hx'
  rw [show ((c0 :: s') ++ ['<', '/', 'p', '>', '\n'])
      = c0 :: (s' ++ ['<', '/', 'p', '>', '\n']) from rfl]
  rw [show f + 3 = (f + 2) + 1 from rfl]
  rw [lexHtmlAux.eq_def]
  dsimp only
  rw [if_neg h0]
  rw [show c0 :: (s' ++ ['<', '/', 'p', '>', '\n'])
      = (c0 :: s') ++ ['<', '/', 'p', '>', '\n'] from rfl]
  rw [takeWhile_append_all _ _ _ hall, dropWhile_append_all _ _ _ hall]
  rw [show (['<', '/', 'p', '>', '\n'] : List Char).takeWhile
      (fun x => ¬(x = '<')) = [] from by decide]
  rw [show (['<', '/', 'p', '>', '\n'] : List Char).dropWhile
      (fun x => ¬(x = '<')) = ['<', '/', 'p', '>', '\n'] from by decide]
  rw [List.append_nil, lexHtmlAux_close_p f]

/-- Lexing a whole plain paragraph. -/
theorem lexHtml_paragraph (s : List Char) (hs : s ≠ [])
    (hlt : ∀ x ∈ s, ¬(x = '<')) :
    lexHtml (['<', 'p', '>'] ++ s ++ ['<', '/', 'p', '>', '\n'])
      = [.openTag "p" [], .text (String.mk s), .closeTag "p", .text "\n"] := by
  obtain ⟨c0, s', rfl⟩ : ∃ c0 s', s = c0 :: s' := by
    cases s with
    | nil => exact absurd rfl hs
    | cons a b => exact ⟨a, b, rfl⟩
  unfold lexHtml
  rw [show (['<', 'p', '>'] ++ (c0 :: s') ++ ['<', '/', 'p', '>', '\n']).length
      = ((s'.length + 5) + 3) + 1 from by simp]
  rw [show ['<', 'p', '>'] ++ (c0 :: s') ++ ['<', '/', 'p', '>', '\n']
      = '<' :: 'p' :: '>' :: ((c0 :: s') ++ ['<', '/', 'p', '>', '\n']) from by simp]
  rw [lexHtmlAux_open_p ((s'.length + 5) + 3) ((c0 :: s') ++ ['<', '/', 'p', '>', '\n'])]
  rw [lexHtmlAux_text_tail (s'.length + 5) c0 s'
    (fun h => hlt c0 (by simp) h) (fun x hx h => hlt x (by simp [hx]) h)]

/-- The sanitizer keeps a pure paragraph unchanged. -/
theorem sanitize_paragraph (s : String) :
    sanitizeToks [.openTag "p" [], .text s, .closeTag "p", .text "\n"]
      = [.openTag "p" [], .text s, .closeTag "p", .text "\n"] := by
  simp [sanitizeToks, sanitizeAux, sanitizeAttrs,
    show ("p" : String) ∈ allowedTags from by decide]

/-- Escaping is the identity on characters that escape to
themselves. -/
theorem flatten_escTextChar (l : List Char)
    (h : ∀ c ∈ l, escTextChar c = [c]) : (l.map escTextChar).flatten = l := by
  induction l with
  | nil => rfl
  | cons x xs ih =>
    simp [h x (List.mem_cons_self x xs),
      ih (fun y hy => h y (List.mem_cons_of_mem x hy))]

/-- Serialising the paragraph tokens of a text needing no escaping. -/
theorem serialize_paragraph (s : String)
    (hesc : ∀ c ∈ s.data, escTextChar c = [c]) :
    serializeToks [.openTag "p" [], .text s, .closeTag "p", .text "\n"]
      = "<p>" ++ s ++ "</p>\n" := by
  rw [string_eq_iff_data]
  have h1 : ("<p>" ++ s ++ "</p>\n").data
      = ['<', 'p', '>'] ++ s.data ++ ['<', '/', 'p', '>', '\n'] := by
    rw [String.data_append, String.data_append]
  rw [h1]
  show (([.openTag "p" [], .text s, .closeTag "p",
      .text "\n"] : List HtmlTok).map serializeTok).flatten = _
  simp only [List.map_cons, List.map_nil, serializeTok, List.flatten_cons,
    List.flatten_nil, List.append_nil]
  rw [flatten_escTextChar s.data hesc]
  simp [show escTextChar '\n' = ['\n'] from rfl]

/-- `markedParse` wraps a plain one-line text in a paragraph. -/
theorem markedParse_plain (md : String) (c0 : Char) (t : List Char)
    (hd : md.data = c0 :: t) (hc0 : c0.isAlpha = true)
    (hall : ∀ c ∈ md.data, (c.isAlpha || c = ' ') = true) :
    markedParse md
      = String.mk (['<', 'p', '>'] ++ md.data ++ ['<', '/', 'p', '>', '\n']) := by
  unfold markedParse
  have hnl : ∀ x ∈ md.data, ¬(x = '\n') :=
    fun x hx => (plain_char_props x (hall x hx)).1
  rw [splitList_of_no_sep '\n' md.data hnl]
  have hblank : isBlankLine md.data = false := by
    rw [hd]
    simp [isBlankLine, (alpha_not_special c0 hc0).1, (alpha_not_special c0 hc0).2.1]
  rw [groupBlocks_single md.data hblank]
  simp only [List.map_cons, List.map_nil, List.flatten_cons, List.flatten_nil,
    List.append_nil]
  rw [hd, renderBlock_paragraph c0 t (alpha_not_special c0 hc0).2.2.1
    (alpha_not_special c0 hc0).2.2.2.1]

/-- C8: rendering plain-text Markdown with no special syntax yields
exactly the input wrapped in a paragraph element (`marked` adds a
trailing newline) with its textual content unchanged. -/
theorem plain_markdown_roundtrip (md : String) (h : plainMarkdown md = true) :
    renderPipeline md = "<p>" ++ md ++ "</p>\n" := by
  unfold plainMarkdown at h
  simp only [Bool.and_eq_true, List.all_eq_true] at h
  obtain ⟨⟨hall, hhead⟩, -⟩ := h
  obtain ⟨c0, t, hd⟩ : ∃ c0 t, md.data = c0 :: t := by
    cases hmd : md.data with
    | nil => rw [hmd] at hhead; simp at hhead
    | cons a b => exact ⟨a, b, rfl⟩
  have hc0 : c0.isAlpha = true := by
    rw [hd] at hhead
    simpa using hhead
  have hall' : ∀ c ∈ md.data, (c.isAlpha || c = ' ') = true := by
    intro c hc
    simpa using hall c hc
  have hlt : ∀ x ∈ md.data, ¬(x = '<') :=
    fun x hx => (plain_char_props x (hall' x hx)).2.1
  have hesc : ∀ c ∈ md.data, escTextChar c = [c] :=
    fun x hx => (plain_char_props x (hall' x hx)).2.2
  unfold renderPipeline dompurifySanitize
  rw [markedParse_plain md c0 t hd hc0 hall']
  rw [show (String.mk (['<', 'p', '>'] ++ md.data ++ ['<', '/', 'p', '>', '\n'])).data
      = ['<', 'p', '>'] ++ md.data ++ ['<', '/', 'p', '>', '\n'] from rfl]
  rw [lexHtml_paragraph md.data (by rw [hd]; simp) hlt]
  rw [show String.mk md.data = md from by cases md; rfl]
  rw [sanitize_paragraph md]
  rw [serialize_paragraph md hesc]

/-- C8 witness: a concrete plain text round-trips through the
pipeline. -/
theorem plain_markdown_roundtrip_witness :
    plainMarkdown "hello world" = true ∧
    renderPipeline "hello world" = "<p>hello world</p>\n" :=
  ⟨by decide, plain_markdown_roundtrip "hello world" (by decide)⟩

end Readme
